import Mathlib

set_option maxRecDepth 2000

/-!
# Verification of the Wilson screener (src/run_screener.py)

Shallow embedding of the screener pipeline in `run_screener.py`.

Modelling conventions:
* Python floats are modelled as rationals (`ℚ`); the properties checked here
  are order/arithmetic properties that do not depend on binary rounding.
* A pandas column value that may be `NaN`/`None` is modelled as `Option ℚ`.
* The network is modelled as an oracle attached to each universe row: a
  `fetchOk` flag (whether the two per-entity enrichment GETs succeed) and the
  four already-extracted optional ratio fields.  `_extract_first_record` and
  `_pick` only locate values inside the JSON payloads; no claim is about that
  location logic, so the model starts from the located values.
* File writes (`open(..., "w")`/`json.dump`/`to_csv`) are modelled by
  accumulating the written file names in the run state.
* The initial `fetch_us_universe` call and the start-up `SystemExit` checks
  happen before everything modelled here; the model takes the parsed universe
  rows as input.
-/

namespace Screener

/-- TREASURY_10Y default (`0.0423`, line 12). -/
def TREASURY_10Y_default : ℚ := 423 / 10000

/-- MAX_TICKERS_TO_EVALUATE (line 21). -/
def MAX_TICKERS_TO_EVALUATE : ℕ := 1200

/-- DEBUG_SAVE_FIRST_N (line 22). -/
def DEBUG_SAVE_FIRST_N : ℕ := 3

/-- ALLOWED_EXCHANGES (line 18). -/
def ALLOWED_EXCHANGES : List String := ["NYSE", "NASDAQ", "AMEX"]

/-- An untyped scalar as it arrives from the provider: a number, a numeric
string (which Python `float()` parses), an unparseable string, or null. -/
inductive Value where
  | num (q : ℚ)
  | strNum (q : ℚ)
  | strBad
  | null
deriving DecidableEq

/-- `_to_float` (lines 34-40): `None` stays `None`, `float(x)` succeeds on
numbers and numeric strings, and any parse failure yields `None`. -/
def to_float : Value → Option ℚ
  | .num q => some q
  | .strNum q => some q
  | .strBad => none
  | .null => none

/-- Numeric core of `_normalize_div_yield` (lines 47-50): divide by 100 iff
the value strictly exceeds 1. -/
def normFrac (q : ℚ) : ℚ := if 1 < q then q / 100 else q

/-- `_normalize_div_yield` (lines 43-50). -/
def normalize_div_yield (v : Value) : Option ℚ := (to_float v).map normFrac

/-- Round-half-to-even on rationals, the rounding mode of Python `round`. -/
def roundHalfEven (q : ℚ) : ℤ :=
  if q - ⌊q⌋ < 1/2 then ⌊q⌋
  else if 1/2 < q - ⌊q⌋ then ⌊q⌋ + 1
  else if 2 ∣ ⌊q⌋ then ⌊q⌋ else ⌊q⌋ + 1

/-- Python `round(x, ndigits)` modelled on exact rationals. -/
def pyRound (ndigits : ℕ) (q : ℚ) : ℚ :=
  (roundHalfEven (q * 10 ^ ndigits) : ℚ) / 10 ^ ndigits

/-- ASCII upper-casing of one character (`str.upper` on the tickers here). -/
def upperChar (c : Char) : Char :=
  if 97 ≤ c.toNat ∧ c.toNat ≤ 122 then Char.ofNat (c.toNat - 32) else c

/-- `.astype(str).str.upper().str.strip()` (lines 145-146). -/
def canonStr (s : String) : String :=
  String.mk
    ((((s.data.map upperChar).dropWhile Char.isWhitespace).reverse.dropWhile
        Char.isWhitespace).reverse)

/-- One row of the `company-screener` universe (lines 143-148), together with
the oracle for this entity's two enrichment calls: `fetchOk` is whether both
GETs succeed, and `pe`/`pb`/`de`/`dy` are the values located by
`_pick`/`_extract_first_record` in the payloads (lines 180-199), already
passed through `_to_float` (`dy` before its `_normalize_div_yield`). -/
structure UniverseRow where
  symbol : String
  exchange : String
  price : Option ℚ
  lastAnnualDividend : Option ℚ
  fetchOk : Bool
  pe : Option ℚ
  pb : Option ℚ
  de : Option ℚ
  dy : Option ℚ
deriving DecidableEq, Inhabited

/-- A universe row surviving the exchange/price filters (lines 150-152):
ticker and exchange canonicalized, price known positive. -/
structure Stage0Row where
  ticker : String
  exchange : String
  price : ℚ
  lastAnnualDividend : Option ℚ
  fetchOk : Bool
  pe : Option ℚ
  pb : Option ℚ
  de : Option ℚ
  dy : Option ℚ
deriving DecidableEq, Inhabited

/-- Lines 143-152: keep the needed columns, canonicalize ticker/exchange,
keep allowed exchanges, drop null prices, keep strictly positive prices. -/
def filterUniverse (rows : List UniverseRow) : List Stage0Row :=
  rows.filterMap fun r =>
    match r.price with
    | some p =>
      if canonStr r.exchange ∈ ALLOWED_EXCHANGES ∧ 0 < p then
        some ⟨canonStr r.symbol, canonStr r.exchange, p, r.lastAnnualDividend,
              r.fetchOk, r.pe, r.pb, r.de, r.dy⟩
      else none
    | none => none

/-- Line 154: `divYield_est = normalize(lastAnnualDividend / price)`; a null
dividend propagates to a null estimate (NaN arithmetic in pandas). -/
def divYieldEst (r : Stage0Row) : Option ℚ :=
  r.lastAnnualDividend.map fun lad => normFrac (lad / r.price)

/-- Sort key for the stage-1 descending sort (line 157). -/
def estKey (r : Stage0Row) : ℚ := (divYieldEst r).getD 0

/-- Descending-estimate ordering used at line 157. -/
def estGE (a b : Stage0Row) : Prop := estKey b ≤ estKey a

instance : DecidableRel estGE := fun a b =>
  inferInstanceAs (Decidable (estKey b ≤ estKey a))

instance : IsTotal Stage0Row estGE := ⟨fun a b => le_total (estKey b) (estKey a)⟩

instance : IsTrans Stage0Row estGE := ⟨fun _ _ _ h1 h2 => le_trans h2 h1⟩

/-- Line 156: rows whose estimate is non-null and at least the threshold. -/
def stage1Candidates (T : ℚ) (df : List Stage0Row) : List Stage0Row :=
  df.filter fun r =>
    match divYieldEst r with
    | some e => decide (T ≤ e)
    | none => false

/-- Lines 156-157: filter, sort by estimate descending, take the head. -/
def stage1 (T : ℚ) (df : List Stage0Row) : List Stage0Row :=
  (List.insertionSort estGE (stage1Candidates T df)).take MAX_TICKERS_TO_EVALUATE

/-- One row of the `results` list (lines 216-229). -/
structure ScoredRecord where
  ticker : String
  exchange : String
  price : ℚ
  divYield : ℚ
  pe : ℚ
  pb : ℚ
  debtEquity : ℚ
  rule_div : Bool
  rule_pe : Bool
  rule_pb : Bool
  rule_de : Bool
  passes : Bool
deriving DecidableEq, Inhabited

/-- Lines 209-229: the four rules, the aggregate, and the rounded output
fields for one fully-populated entity. -/
def mkScored (T : ℚ) (r : Stage0Row) (pe pb de dy : ℚ) : ScoredRecord :=
  let rule_div : Bool := decide (T ≤ dy)
  let rule_pe : Bool := decide (pe ≤ 13)
  let rule_pb : Bool := decide (pb ≤ 1)
  let rule_de : Bool := decide (de ≤ 1)
  { ticker := r.ticker
    exchange := r.exchange
    price := pyRound 2 r.price
    divYield := pyRound 6 dy
    pe := pyRound 4 pe
    pb := pyRound 4 pb
    debtEquity := pyRound 4 de
    rule_div := rule_div
    rule_pe := rule_pe
    rule_pb := rule_pb
    rule_de := rule_de
    passes := rule_div && rule_pe && rule_pb && rule_de }

/-- Lines 205-229: an entity with any of the four values still null is
skipped (`continue`), otherwise it is scored. -/
def evalEntity (T : ℚ) (r : Stage0Row) (pe pb de dy : Option ℚ) :
    Option ScoredRecord :=
  match pe, pb, de, dy with
  | some a, some b, some c, some d => some (mkScored T r a b c d)
  | _, _, _, _ => none

/-- Lines 189-203: the dividend yield used for rule evaluation — the payload
value if present, else `_normalize_div_yield(divYield_est)`.  (The payload
value itself already went through `_normalize_div_yield` at lines 189/199;
that application is part of `entityDy`.) -/
def entityDy (r : Stage0Row) : Option ℚ :=
  match r.dy with
  | some d => some (normFrac d)
  | none => (divYieldEst r).map normFrac

/-- The evaluation of one stage-1 row (lines 180-229). -/
def evalRow (T : ℚ) (r : Stage0Row) : Option ScoredRecord :=
  evalEntity T r r.pe r.pb r.de (entityDy r)

/-- Lines 235-240: `rulesPassed` as the sum of the int-cast flags. -/
def rulesPassed (rec : ScoredRecord) : ℕ :=
  (cond rec.rule_div 1 0) + (cond rec.rule_pe 1 0) +
    (cond rec.rule_pb 1 0) + (cond rec.rule_de 1 0)

/-- The (rulesPassed desc, divYield desc) ordering of line 241. -/
def topGE (a b : ScoredRecord) : Prop :=
  rulesPassed b < rulesPassed a ∨
    (rulesPassed b = rulesPassed a ∧ b.divYield ≤ a.divYield)

instance : DecidableRel topGE := fun a b =>
  inferInstanceAs (Decidable (rulesPassed b < rulesPassed a ∨
    (rulesPassed b = rulesPassed a ∧ b.divYield ≤ a.divYield)))

/-- The mutable state of the enrichment loop (lines 159-162 and the files it
has written so far). -/
structure LoopState where
  results : List ScoredRecord
  skipped : ℕ
  debugSaved : ℕ
  files : List String
deriving DecidableEq

/-- The two debug payload files saved for entity number `n` (lines 174-177). -/
def debugFiles (n : ℕ) : List String :=
  ["debug_ratios_" ++ toString n ++ ".json",
   "debug_metrics_" ++ toString n ++ ".json"]

/-- All file names the debug block can ever write. -/
def allDebugFiles : List String := debugFiles 1 ++ debugFiles 2 ++ debugFiles 3

/-- Lines 173-178: save the raw payloads of the first three entities. -/
def dbgUpdate (s : LoopState) : LoopState :=
  if s.debugSaved < DEBUG_SAVE_FIRST_N then
    { s with debugSaved := s.debugSaved + 1,
             files := s.files ++ debugFiles (s.debugSaved + 1) }
  else s

/-- The enrichment loop (lines 164-229).  A failing enrichment call raises
out of `_get_json` (line 30) with no handler, so the loop stops and the
whole run is aborted: the `Bool` is the aborted flag, the returned state is
the state at that moment (debug files already on disk stay on disk). -/
def runLoop (T : ℚ) : LoopState → List Stage0Row → LoopState × Bool
  | s, [] => (s, false)
  | s, r :: rest =>
    if r.fetchOk then
      match evalRow T r with
      | some rec =>
        runLoop T { dbgUpdate s with results := (dbgUpdate s).results ++ [rec] } rest
      | none =>
        runLoop T { dbgUpdate s with skipped := (dbgUpdate s).skipped + 1 } rest
    else (s, true)

def initState : LoopState := ⟨[], 0, 0, []⟩

/-- The JSON report payload (lines 245-261); `passList` is the `"pass"` key. -/
structure RunReport where
  treasuryYield10y : ℚ
  universeCount : ℕ
  stage1_prefilter : ℕ
  evaluated : ℕ
  skipped_missing : ℕ
  all_rules_pass : ℕ
  debug_files_written : ℕ
  passList : List ScoredRecord
  topCandidates : List ScoredRecord
deriving DecidableEq

/-- Lines 231-261: `pass_df` is the unsorted passing subset of `results`;
`top_df` is the first 60 of `results` sorted by (rulesPassed desc,
divYield desc); the stats are the listed counters. -/
def assembleReport (T : ℚ) (dfLen s1Len : ℕ) (st : LoopState) : RunReport :=
  let passL := st.results.filter fun rec => rec.passes
  let top := (List.insertionSort topGE st.results).take 60
  { treasuryYield10y := T
    universeCount := dfLen
    stage1_prefilter := s1Len
    evaluated := st.results.length
    skipped_missing := st.skipped
    all_rules_pass := passL.length
    debug_files_written := st.debugSaved
    passList := passL
    topCandidates := top }

/-- The outcome of one run: whether it aborted with an unhandled exception,
the files it wrote, and the report (absent iff aborted). -/
structure RunResult where
  aborted : Bool
  files : List String
  report : Option RunReport
deriving DecidableEq

/-- `main` from the parsed universe on (lines 143-266).  `passlist.json` and
`passlist.csv` (lines 263-266) are written only after the loop finishes. -/
def runScreener (T : ℚ) (rows : List UniverseRow) : RunResult :=
  let df := filterUniverse rows
  let s1 := stage1 T df
  let st := (runLoop T initState s1).1
  let ab := (runLoop T initState s1).2
  if ab then ⟨true, st.files, none⟩
  else
    ⟨false, st.files ++ ["passlist.json", "passlist.csv"],
      some (assembleReport T df.length s1.length st)⟩

/-- The scored records of a run in evaluation order. -/
def evalResults (T : ℚ) (rows : List UniverseRow) : List ScoredRecord :=
  (runLoop T initState (stage1 T (filterUniverse rows))).1.results

def emptyReport : RunReport := ⟨0, 0, 0, 0, 0, 0, 0, [], []⟩

/-- The report of a run, defaulting to the empty report when aborted. -/
def reportOf (T : ℚ) (rows : List UniverseRow) : RunReport :=
  ((runScreener T rows).report).getD emptyReport

/-- The ordering the spec claims for the `pass` list, stated from the spec's
words (descending dividend yield, ties broken by ascending price/earnings):
each adjacent pair is strictly descending in yield, or tied with
non-decreasing price/earnings.  Spec-side definition, for comparison with
the code's behaviour. -/
def specPassOrdered (l : List ScoredRecord) : Prop :=
  l.Chain' fun a b => b.divYield < a.divYield ∨
    (a.divYield = b.divYield ∧ a.pe ≤ b.pe)

/-- Executable decision procedure for `specPassOrdered`. -/
def specPassOrderedB : List ScoredRecord → Bool
  | [] => true
  | [_] => true
  | a :: b :: rest =>
    (decide (b.divYield < a.divYield) ||
      (decide (a.divYield = b.divYield) && decide (a.pe ≤ b.pe))) &&
      specPassOrderedB (b :: rest)

theorem specPassOrdered_iff (l : List ScoredRecord) :
    specPassOrdered l ↔ specPassOrderedB l = true := by
  induction l with
  | nil => simp [specPassOrdered, specPassOrderedB]
  | cons a rest ih =>
    cases rest with
    | nil => simp [specPassOrdered, specPassOrderedB]
    | cons b rest2 =>
      simp only [specPassOrdered] at ih ⊢
      rw [List.chain'_cons]
      simp [specPassOrderedB, Bool.and_eq_true, Bool.or_eq_true,
        decide_eq_true_eq, ih]

instance (l : List ScoredRecord) : Decidable (specPassOrdered l) :=
  decidable_of_iff _ (specPassOrdered_iff l).symm

/-! ## Concrete inputs used by the checks below -/

/-- Shorthand for the default threshold in the concrete checks. -/
def T0 : ℚ := TREASURY_10Y_default

/-- A fully-populated entity that passes all four rules
(estimate 0.1, payload yield 0.05, pe 10, pb 0.5, de 0.5). -/
def uA : UniverseRow :=
  { symbol := "AAA", exchange := "NYSE", price := some 10,
    lastAnnualDividend := some 1, fetchOk := true,
    pe := some 10, pb := some (1/2), de := some (1/2), dy := some (1/20) }

/-- Like `uA` but with a smaller estimate (0.09) and a larger payload
yield (0.06), so it sorts after `uA` at stage 1 yet out-yields it. -/
def uB : UniverseRow :=
  { symbol := "BBB", exchange := "NYSE", price := some 10,
    lastAnnualDividend := some (9/10), fetchOk := true,
    pe := some 10, pb := some (1/2), de := some (1/2), dy := some (3/50) }

/-- An entity whose enrichment calls fail with a transport error
(estimate 0.09, so it is reached after `uA`). -/
def uBad : UniverseRow :=
  { symbol := "BAD", exchange := "NYSE", price := some 10,
    lastAnnualDividend := some (9/10), fetchOk := false,
    pe := some 10, pb := some (1/2), de := some (1/2), dy := some (3/50) }

/-- An entity whose price/earnings field is null in both payloads
(estimate 0.08). -/
def uM : UniverseRow :=
  { symbol := "MMM", exchange := "NYSE", price := some 10,
    lastAnnualDividend := some (8/10), fetchOk := true,
    pe := none, pb := some (1/2), de := some (1/2), dy := some (1/20) }

/-! ## General lemmas about the pipeline -/

theorem dbgUpdate_results (s : LoopState) : (dbgUpdate s).results = s.results := by
  unfold dbgUpdate; split <;> rfl

theorem dbgUpdate_skipped (s : LoopState) : (dbgUpdate s).skipped = s.skipped := by
  unfold dbgUpdate; split <;> rfl

theorem dbgUpdate_files_mem (s : LoopState) :
    ∀ f ∈ (dbgUpdate s).files, f ∈ s.files ∨ f ∈ allDebugFiles := by
  intro f hf
  unfold dbgUpdate at hf
  split at hf
  · rename_i hlt
    simp only [List.mem_append] at hf
    rcases hf with hf | hf
    · exact Or.inl hf
    · right
      have h3 : s.debugSaved = 0 ∨ s.debugSaved = 1 ∨ s.debugSaved = 2 := by
        have hlt3 : s.debugSaved < 3 := hlt
        omega
      unfold allDebugFiles
      rcases h3 with h0 | h1 | h2
      · rw [h0] at hf
        exact List.mem_append_left _ (List.mem_append_left _ hf)
      · rw [h1] at hf
        exact List.mem_append_left _ (List.mem_append_right _ hf)
      · rw [h2] at hf
        exact List.mem_append_right _ hf
  · exact Or.inl hf

theorem runLoop_cons_ok (T : ℚ) (s : LoopState) (r : Stage0Row)
    (rest : List Stage0Row) (hr : r.fetchOk = true) :
    runLoop T s (r :: rest) =
      match evalRow T r with
      | some rec =>
        runLoop T { dbgUpdate s with results := (dbgUpdate s).results ++ [rec] } rest
      | none =>
        runLoop T { dbgUpdate s with skipped := (dbgUpdate s).skipped + 1 } rest := by
  simp [runLoop, hr]

theorem runLoop_cons_bad (T : ℚ) (s : LoopState) (r : Stage0Row)
    (rest : List Stage0Row) (hr : r.fetchOk = false) :
    runLoop T s (r :: rest) = (s, true) := by
  simp [runLoop, hr]

theorem runLoop_complete (T : ℚ) (rows : List Stage0Row) :
    ∀ s : LoopState, (runLoop T s rows).2 = false →
      (runLoop T s rows).1.results = s.results ++ rows.filterMap (evalRow T) ∧
      (runLoop T s rows).1.skipped =
        s.skipped + rows.countP (fun r => (evalRow T r).isNone) ∧
      ∀ r ∈ rows, r.fetchOk = true := by
  induction rows with
  | nil => intro s _; simp [runLoop]
  | cons r rest ih =>
    intro s hab
    by_cases hr : r.fetchOk = true
    · rw [runLoop_cons_ok T s r rest hr] at hab ⊢
      cases hev : evalRow T r with
      | some rec =>
        simp only [hev] at hab ⊢
        obtain ⟨h1, h2, h3⟩ := ih _ hab
        refine ⟨?_, ?_, ?_⟩
        · rw [h1]
          simp [dbgUpdate_results, List.filterMap_cons, hev, List.append_assoc]
        · rw [h2]
          simp [dbgUpdate_skipped, List.countP_cons, hev, Option.isNone]
        · intro x hx
          rcases List.mem_cons.mp hx with hx | hx
          · exact hx ▸ hr
          · exact h3 x hx
      | none =>
        simp only [hev] at hab ⊢
        obtain ⟨h1, h2, h3⟩ := ih _ hab
        refine ⟨?_, ?_, ?_⟩
        · rw [h1]
          simp [dbgUpdate_results, List.filterMap_cons, hev]
        · rw [h2]
          simp [dbgUpdate_skipped, List.countP_cons, hev]
          omega
        · intro x hx
          rcases List.mem_cons.mp hx with hx | hx
          · exact hx ▸ hr
          · exact h3 x hx
    · rw [runLoop_cons_bad T s r rest (Bool.not_eq_true _ ▸ hr)] at hab
      exact absurd hab (by simp)

theorem runLoop_ok (T : ℚ) (rows : List Stage0Row) :
    ∀ s : LoopState, (∀ r ∈ rows, r.fetchOk = true) →
      (runLoop T s rows).2 = false := by
  induction rows with
  | nil => intro s _; rfl
  | cons r rest ih =>
    intro s h
    have hr : r.fetchOk = true := h r (List.mem_cons_self ..)
    rw [runLoop_cons_ok T s r rest hr]
    cases hev : evalRow T r with
    | some rec => exact ih _ fun x hx => h x (List.mem_cons_of_mem _ hx)
    | none => exact ih _ fun x hx => h x (List.mem_cons_of_mem _ hx)

theorem runLoop_aborts (T : ℚ) (rows : List Stage0Row) :
    ∀ s : LoopState, (∃ r ∈ rows, r.fetchOk = false) →
      (runLoop T s rows).2 = true := by
  induction rows with
  | nil => intro s h; simp at h
  | cons r rest ih =>
    intro s h
    by_cases hr : r.fetchOk = true
    · rw [runLoop_cons_ok T s r rest hr]
      obtain ⟨x, hx, hxf⟩ := h
      rcases List.mem_cons.mp hx with hx | hx
      · exact absurd (hx ▸ hxf) (by simp [hr])
      · cases hev : evalRow T r with
        | some rec => exact ih _ ⟨x, hx, hxf⟩
        | none => exact ih _ ⟨x, hx, hxf⟩
    · rw [runLoop_cons_bad T s r rest (Bool.not_eq_true _ ▸ hr)]

theorem runLoop_results_mem (T : ℚ) (rows : List Stage0Row) :
    ∀ s : LoopState, ∀ rec ∈ (runLoop T s rows).1.results,
      rec ∈ s.results ∨ ∃ r ∈ rows, evalRow T r = some rec := by
  induction rows with
  | nil => intro s rec h; exact Or.inl h
  | cons r rest ih =>
    intro s rec h
    by_cases hr : r.fetchOk = true
    · rw [runLoop_cons_ok T s r rest hr] at h
      cases hev : evalRow T r with
      | some rec2 =>
        simp only [hev] at h
        rcases ih _ rec h with hmem | ⟨x, hx, hxe⟩
        · simp only [dbgUpdate_results, List.mem_append, List.mem_singleton] at hmem
          rcases hmem with hmem | hmem
          · exact Or.inl hmem
          · exact Or.inr ⟨r, List.mem_cons_self .., hmem ▸ hev⟩
        · exact Or.inr ⟨x, List.mem_cons_of_mem _ hx, hxe⟩
      | none =>
        simp only [hev] at h
        rcases ih _ rec h with hmem | ⟨x, hx, hxe⟩
        · exact Or.inl (dbgUpdate_results s ▸ hmem)
        · exact Or.inr ⟨x, List.mem_cons_of_mem _ hx, hxe⟩
    · rw [runLoop_cons_bad T s r rest (Bool.not_eq_true _ ▸ hr)] at h
      exact Or.inl h

theorem runLoop_files_mem (T : ℚ) (rows : List Stage0Row) :
    ∀ s : LoopState, ∀ f ∈ (runLoop T s rows).1.files,
      f ∈ s.files ∨ f ∈ allDebugFiles := by
  induction rows with
  | nil => intro s f h; exact Or.inl h
  | cons r rest ih =>
    intro s f h
    by_cases hr : r.fetchOk = true
    · rw [runLoop_cons_ok T s r rest hr] at h
      cases hev : evalRow T r with
      | some rec2 =>
        simp only [hev] at h
        rcases ih _ f h with hmem | hmem
        · exact dbgUpdate_files_mem s f hmem
        · exact Or.inr hmem
      | none =>
        simp only [hev] at h
        rcases ih _ f h with hmem | hmem
        · exact dbgUpdate_files_mem s f hmem
        · exact Or.inr hmem
    · rw [runLoop_cons_bad T s r rest (Bool.not_eq_true _ ▸ hr)] at h
      exact Or.inl h

theorem evalRow_eq_some (T : ℚ) (r : Stage0Row) (rec : ScoredRecord)
    (h : evalRow T r = some rec) :
    ∃ a b c d, rec = mkScored T r a b c d := by
  unfold evalRow evalEntity at h
  cases hpe : r.pe with
  | none => rw [hpe] at h; cases hpb : r.pb <;> cases hde : r.de <;>
      cases hdy : entityDy r <;> simp [hpb, hde, hdy] at h
  | some a =>
    rw [hpe] at h
    cases hpb : r.pb with
    | none => cases hde : r.de <;> cases hdy : entityDy r <;>
        simp [hpb, hde, hdy] at h
    | some b =>
      rw [hpb] at h
      cases hde : r.de with
      | none => cases hdy : entityDy r <;> simp [hde, hdy] at h
      | some c =>
        rw [hde] at h
        cases hdy : entityDy r with
        | none => simp [hdy] at h
        | some d =>
          rw [hdy] at h
          exact ⟨a, b, c, d, (Option.some_inj.mp h).symm⟩

theorem mkScored_passes_def (T : ℚ) (r : Stage0Row) (a b c d : ℚ) :
    (mkScored T r a b c d).passes =
      ((mkScored T r a b c d).rule_div && (mkScored T r a b c d).rule_pe &&
        (mkScored T r a b c d).rule_pb && (mkScored T r a b c d).rule_de) := rfl

theorem mkScored_ticker (T : ℚ) (r : Stage0Row) (a b c d : ℚ) :
    (mkScored T r a b c d).ticker = r.ticker := rfl

theorem mem_stage1Candidates (T : ℚ) (df : List Stage0Row) (r : Stage0Row)
    (h : r ∈ stage1Candidates T df) :
    r ∈ df ∧ ∃ e, divYieldEst r = some e ∧ T ≤ e := by
  unfold stage1Candidates at h
  obtain ⟨hmem, hp⟩ := List.mem_filter.mp h
  refine ⟨hmem, ?_⟩
  cases hde : divYieldEst r with
  | none => rw [hde] at hp; simp at hp
  | some e =>
    rw [hde] at hp
    simp only [decide_eq_true_eq] at hp
    exact ⟨e, rfl, hp⟩

theorem stage1_sorted (T : ℚ) (df : List Stage0Row) :
    List.Sorted estGE (stage1 T df) :=
  (List.sorted_insertionSort estGE (stage1Candidates T df)).sublist
    (List.take_sublist _ _)

theorem stage1_subset (T : ℚ) (df : List Stage0Row) :
    stage1 T df ⊆ stage1Candidates T df := by
  intro r h
  exact (List.perm_insertionSort estGE (stage1Candidates T df)).subset
    ((List.take_sublist _ _).subset h)

/-- A filtered row carrying a negative price/earnings (-5) and a negative
price/book (-2), with benign debt/equity and dividend yield. -/
def sRow : Stage0Row :=
  { ticker := "NEG", exchange := "NYSE", price := 10,
    lastAnnualDividend := some 1, fetchOk := true,
    pe := some (-5), pb := some (-2), de := some (1/2), dy := some (1/20) }

/-! ## Claims -/

/-- C1, counterexample: an entity whose price/earnings field is null in both
payloads is not evaluated into a `ScoredRecord` with a false `rule_pe` flag;
it produces no `ScoredRecord` at all, is dropped from the results, and is
counted in `skipped_missing` instead. -/
theorem C1_counterexample :
    (filterUniverse [uM]).length = 1 ∧
    (∀ r ∈ filterUniverse [uM], r.pe = none) ∧
    (∀ r ∈ filterUniverse [uM], evalRow T0 r = none) ∧
    evalResults T0 [uM] = [] ∧
    (reportOf T0 [uM]).skipped_missing = 1 ∧
    (reportOf T0 [uM]).evaluated = 0 := by
  with_unfolding_all decide

/-- C1, amended: the rule engine never scores a record with a missing
required field — `evalRow` yields no `ScoredRecord` exactly when one of
price/earnings, price/book, debt/equity or the (fallback-resolved) dividend
yield is null, and such records are skipped and counted rather than scored
with that rule's flag false. -/
theorem C1_missing_field_skips (T : ℚ) (r : Stage0Row) :
    evalRow T r = none ↔
      (r.pe = none ∨ r.pb = none ∨ r.de = none ∨ entityDy r = none) := by
  unfold evalRow evalEntity
  cases hpe : r.pe <;> cases hpb : r.pb <;> cases hde : r.de <;>
    cases hdy : entityDy r <;> simp [hpe, hpb, hde, hdy]

/-- C2, counterexample: `_normalize_div_yield` is not idempotent on every
numeric input — at 150 one application yields 3/2 and a second application
yields 3/200. -/
theorem C2_counterexample :
    normalize_div_yield (Value.num 150) = some (3/2) ∧
    normalize_div_yield (Value.num (3/2)) = some (3/200) ∧
    normFrac (normFrac 150) ≠ normFrac 150 := by
  with_unfolding_all decide

/-- C2, amended: on numeric input, one application of the normalization is a
fixed point of a second application exactly when the input is at most 100
(above 100 the first division by 100 still leaves a value above 1, which is
divided again). -/
theorem C2_norm_idempotent_iff (x : ℚ) :
    normFrac (normFrac x) = normFrac x ↔ x ≤ 100 := by
  unfold normFrac
  by_cases h1 : 1 < x
  · rw [if_pos h1]
    by_cases h2 : 1 < x / 100
    · rw [if_pos h2]
      constructor
      · intro heq
        exfalso
        have h100 : (100 : ℚ) < x := by linarith
        linarith
      · intro hle
        exfalso
        linarith
    · rw [if_neg h2]
      push_neg at h2
      exact iff_of_true rfl (by linarith)
  · rw [if_neg h1, if_neg h1]
    push_neg at h1
    exact iff_of_true rfl (by linarith)

/-- C3, counterexample: the normalization does not divide by 100 whenever
the magnitude strictly exceeds 1 — at -6.2 the magnitude exceeds 1 yet the
value passes through unchanged instead of becoming -0.062. -/
theorem C3_counterexample :
    1 < |(-31/5 : ℚ)| ∧
    normalize_div_yield (Value.num (-31/5)) = some (-31/5) ∧
    (-31/5 : ℚ) ≠ (-31/5 : ℚ) / 100 := by
  refine ⟨?_, by with_unfolding_all decide, by norm_num⟩
  rw [abs_of_neg (show (-31/5 : ℚ) < 0 by norm_num)]
  norm_num

/-- C3, amended: the normalization divides by 100 exactly when the value
itself (not its magnitude) strictly exceeds 1, and otherwise passes the
value through; non-numeric, unparseable or null input normalizes to null
and never to zero; 6.2 becomes 0.062 and 0.062 is unchanged. -/
theorem C3_normalize_rule :
    (∀ x : ℚ, normalize_div_yield (Value.num x) =
      some (if 1 < x then x / 100 else x)) ∧
    (∀ x : ℚ, normalize_div_yield (Value.strNum x) =
      some (if 1 < x then x / 100 else x)) ∧
    normalize_div_yield Value.null = none ∧
    normalize_div_yield Value.strBad = none ∧
    normalize_div_yield Value.strBad ≠ some 0 ∧
    normalize_div_yield (Value.num (31/5)) = some (62/1000) ∧
    normalize_div_yield (Value.num (62/1000)) = some (62/1000) := by
  refine ⟨fun x => rfl, fun x => rfl, rfl, rfl,
    by simp [normalize_div_yield, to_float], ?_, ?_⟩ <;>
    norm_num [normalize_div_yield, to_float, normFrac]

/-- C4, counterexample: a record with negative price/earnings (-5) and
negative price/book (-2) is not treated as unratable — it is scored, both
ratio rules hold on it, and it even passes the whole screen. -/
theorem C4_counterexample :
    evalRow T0 sRow = some (mkScored T0 sRow (-5) (-2) (1/2) (1/20)) ∧
    (mkScored T0 sRow (-5) (-2) (1/2) (1/20)).rule_pe = true ∧
    (mkScored T0 sRow (-5) (-2) (1/2) (1/20)).rule_pb = true ∧
    (mkScored T0 sRow (-5) (-2) (1/2) (1/20)).passes = true := by
  with_unfolding_all decide

/-- C4, amended: negative price/earnings and price/book ratios are not
normalized to null before rule evaluation; a negative ratio always
satisfies its "at most threshold" rule. -/
theorem C4_negative_satisfies_rules (T : ℚ) (r : Stage0Row) (a b c d : ℚ)
    (ha : a < 0) (hb : b < 0) :
    (mkScored T r a b c d).rule_pe = true ∧
    (mkScored T r a b c d).rule_pb = true := by
  refine ⟨?_, ?_⟩ <;> simp [mkScored] <;> linarith

/-- Witness for C4: the amended theorem applied at the concrete negative
ratios -5 and -2. -/
theorem C4_witness :
    ((-5 : ℚ) < 0) ∧ ((-2 : ℚ) < 0) ∧
    ((mkScored T0 sRow (-5) (-2) (1/2) (1/20)).rule_pe = true ∧
     (mkScored T0 sRow (-5) (-2) (1/2) (1/20)).rule_pb = true) :=
  ⟨by norm_num, by norm_num,
    C4_negative_satisfies_rules T0 sRow (-5) (-2) (1/2) (1/20)
      (by norm_num) (by norm_num)⟩

/-- C5: for every scored record, the aggregate `passes` flag is true iff
all four rule flags are true, and `rulesPassed` equals the number of true
flags (the two properties agree on all 16 flag combinations, which the
case split below enumerates). -/
theorem C5_pass_iff_and_count (T : ℚ) (r : Stage0Row) (a b c d : ℚ) :
    ((mkScored T r a b c d).passes = true ↔
      ((mkScored T r a b c d).rule_div = true ∧
       (mkScored T r a b c d).rule_pe = true ∧
       (mkScored T r a b c d).rule_pb = true ∧
       (mkScored T r a b c d).rule_de = true)) ∧
    rulesPassed (mkScored T r a b c d) =
      [(mkScored T r a b c d).rule_div, (mkScored T r a b c d).rule_pe,
       (mkScored T r a b c d).rule_pb,
       (mkScored T r a b c d).rule_de].count true := by
  constructor
  · simp [mkScored, Bool.and_eq_true, and_assoc]
  · simp only [mkScored, rulesPassed]
    cases decide (T ≤ d) <;> cases decide (a ≤ 13) <;>
      cases decide (b ≤ 1) <;> cases decide (c ≤ 1) <;> rfl

/-- The per-row evaluations and the skip count of a batch of rows add up to
the batch size. -/
theorem eval_skip_total (T : ℚ) (rows : List Stage0Row) :
    (rows.filterMap (evalRow T)).length +
      rows.countP (fun r => (evalRow T r).isNone) = rows.length := by
  induction rows with
  | nil => rfl
  | cons r rest ih =>
    cases hev : evalRow T r <;>
      simp [List.filterMap_cons, List.countP_cons, hev] <;> omega

/-- C6, counterexample: the emitted `pass` list is not sorted by descending
dividend yield — a two-entity run whose stage-1 estimate order differs from
the enriched dividend yields produces the pass list [0.05, 0.06], which is
ascending. -/
theorem C6_counterexample :
    (runScreener T0 [uA, uB]).report = some (reportOf T0 [uA, uB]) ∧
    (reportOf T0 [uA, uB]).passList.map (fun rec => rec.divYield) =
      [1/20, 3/50] ∧
    ¬ specPassOrdered (reportOf T0 [uA, uB]).passList := by
  refine ⟨by with_unfolding_all rfl, ?_, ?_⟩ <;> with_unfolding_all decide

/-- C6, amended: the `pass` list is the passing records in evaluation
order — the stage-1 order, which is descending in the *estimated* dividend
yield — with no re-sort by final dividend yield or price/earnings. -/
theorem C6_pass_order (T : ℚ) (rows : List UniverseRow) (rep : RunReport)
    (hrep : (runScreener T rows).report = some rep) :
    rep.passList = (evalResults T rows).filter (fun rec => rec.passes) ∧
    List.Sorted estGE (stage1 T (filterUniverse rows)) := by
  refine ⟨?_, stage1_sorted T (filterUniverse rows)⟩
  by_cases hab : (runLoop T initState (stage1 T (filterUniverse rows))).2 = true
  · simp [runScreener, hab] at hrep
  · rw [Bool.not_eq_true] at hab
    simp only [runScreener, hab, Bool.false_eq_true, if_false,
      Option.some_inj] at hrep
    subst hrep
    rfl

/-- Witness for C6: the amended theorem applied to a concrete one-entity
run. -/
theorem C6_witness :
    (runScreener T0 [uA]).report = some (reportOf T0 [uA]) ∧
    ((reportOf T0 [uA]).passList =
        (evalResults T0 [uA]).filter (fun rec => rec.passes) ∧
      List.Sorted estGE (stage1 T0 (filterUniverse [uA]))) :=
  ⟨by with_unfolding_all rfl,
   C6_pass_order T0 [uA] (reportOf T0 [uA]) (by with_unfolding_all rfl)⟩

/-- C7, counterexample: a transport failure during one entity's enrichment
is not isolated — with a healthy entity and a failing entity in stage 1,
the whole run aborts and no report (hence no skip statistic) is produced. -/
theorem C7_counterexample :
    (stage1 T0 (filterUniverse [uA, uBad])).length = 2 ∧
    (runScreener T0 [uA, uBad]).aborted = true ∧
    (runScreener T0 [uA, uBad]).report = none := by
  with_unfolding_all decide

/-- C7, amended: a transport failure during any entity's enrichment aborts
the whole run with no report; when every enrichment call succeeds the run
completes, and the entities skipped for missing fields are exactly
accounted for in the surfaced stats
(`skipped_missing + evaluated = stage1_prefilter`). -/
theorem C7_failure_aborts (T : ℚ) (rows : List UniverseRow) :
    ((∃ r ∈ stage1 T (filterUniverse rows), r.fetchOk = false) →
      (runScreener T rows).aborted = true ∧
      (runScreener T rows).report = none) ∧
    ((∀ r ∈ stage1 T (filterUniverse rows), r.fetchOk = true) →
      (runScreener T rows).aborted = false ∧
      ∃ rep, (runScreener T rows).report = some rep ∧
        rep.skipped_missing + rep.evaluated = rep.stage1_prefilter ∧
        rep.stage1_prefilter = (stage1 T (filterUniverse rows)).length) := by
  constructor
  · intro h
    have hab := runLoop_aborts T (stage1 T (filterUniverse rows)) initState h
    simp [runScreener, hab]
  · intro hok
    have hab := runLoop_ok T (stage1 T (filterUniverse rows)) initState hok
    obtain ⟨h1, h2, -⟩ :=
      runLoop_complete T (stage1 T (filterUniverse rows)) initState hab
    refine ⟨by simp [runScreener, hab], ?_⟩
    refine ⟨assembleReport T (filterUniverse rows).length
      (stage1 T (filterUniverse rows)).length
      (runLoop T initState (stage1 T (filterUniverse rows))).1,
      by simp [runScreener, hab], ?_, rfl⟩
    have htot := eval_skip_total T (stage1 T (filterUniverse rows))
    simp only [assembleReport]
    rw [h1, h2]
    simp only [initState, List.nil_append, Nat.zero_add]
    omega

/-- Witness for C7: the amended theorem applied to a run with a failing
enrichment call and to a run whose calls all succeed. -/
theorem C7_witness :
    ((runScreener T0 [uA, uBad]).aborted = true ∧
      (runScreener T0 [uA, uBad]).report = none) ∧
    ((runScreener T0 [uA, uM]).aborted = false ∧
      ∃ rep, (runScreener T0 [uA, uM]).report = some rep ∧
        rep.skipped_missing + rep.evaluated = rep.stage1_prefilter ∧
        rep.stage1_prefilter = (stage1 T0 (filterUniverse [uA, uM])).length) :=
  ⟨(C7_failure_aborts T0 [uA, uBad]).1 (by with_unfolding_all decide),
   (C7_failure_aborts T0 [uA, uM]).2 (by with_unfolding_all decide)⟩

/-- C8, counterexample: a run that aborts with a transport error can still
have written files — the debug payload files of the entities enriched
before the failure. -/
theorem C8_counterexample :
    (runScreener T0 [uA, uBad]).aborted = true ∧
    (runScreener T0 [uA, uBad]).files =
      ["debug_ratios_1.json", "debug_metrics_1.json"] ∧
    (runScreener T0 [uA, uBad]).files ≠ [] := by
  with_unfolding_all decide

/-- C8, amended: a run that aborts with a fatal error has not written the
report artifacts — `passlist.json` and `passlist.csv` are never among its
written files, which are all debug payload files. -/
theorem C8_no_report_files_on_abort (T : ℚ) (rows : List UniverseRow)
    (hab : (runScreener T rows).aborted = true) :
    "passlist.json" ∉ (runScreener T rows).files ∧
    "passlist.csv" ∉ (runScreener T rows).files ∧
    ∀ f ∈ (runScreener T rows).files, f ∈ allDebugFiles := by
  have hmem : ∀ f ∈ (runScreener T rows).files, f ∈ allDebugFiles := by
    intro f hf
    by_cases h2 : (runLoop T initState (stage1 T (filterUniverse rows))).2 = true
    · simp only [runScreener, h2, if_true] at hf
      rcases runLoop_files_mem T (stage1 T (filterUniverse rows)) initState f hf
        with h | h
      · exact absurd h (by simp [initState])
      · exact h
    · rw [Bool.not_eq_true] at h2
      have habs : (runScreener T rows).aborted = false := by
        simp [runScreener, h2]
      rw [hab] at habs
      exact Bool.noConfusion habs
  exact ⟨fun h => absurd (hmem _ h) (by decide),
    fun h => absurd (hmem _ h) (by decide), hmem⟩

/-- Witness for C8: the amended theorem applied to a concrete aborted
run. -/
theorem C8_witness :
    "passlist.json" ∉ (runScreener T0 [uBad]).files ∧
    "passlist.csv" ∉ (runScreener T0 [uBad]).files ∧
    ∀ f ∈ (runScreener T0 [uBad]).files, f ∈ allDebugFiles :=
  C8_no_report_files_on_abort T0 [uBad] (by with_unfolding_all decide)

/-- C9: every record in the report's `pass` list passes the aggregate rule
and all four individual rules — no failing record ever appears there.
(The CSV artifact serializes the same `pass_df`.) -/
theorem C9_pass_list_all_flags (T : ℚ) (rows : List UniverseRow)
    (rep : RunReport) (rec : ScoredRecord)
    (hrep : (runScreener T rows).report = some rep)
    (hmem : rec ∈ rep.passList) :
    rec.passes = true ∧ rec.rule_div = true ∧ rec.rule_pe = true ∧
    rec.rule_pb = true ∧ rec.rule_de = true := by
  by_cases hab : (runLoop T initState (stage1 T (filterUniverse rows))).2 = true
  · simp [runScreener, hab] at hrep
  · rw [Bool.not_eq_true] at hab
    simp only [runScreener, hab, Bool.false_eq_true, if_false,
      Option.some_inj] at hrep
    subst hrep
    simp only [assembleReport] at hmem
    obtain ⟨hres, hpass⟩ := List.mem_filter.mp hmem
    rcases runLoop_results_mem T (stage1 T (filterUniverse rows)) initState
      rec hres with h | ⟨r, -, hev⟩
    · exact absurd h (by simp [initState])
    · obtain ⟨a, b, c, d, rfl⟩ := evalRow_eq_some T r rec hev
      have hflags := hpass
      rw [mkScored_passes_def] at hflags
      simp only [Bool.and_eq_true] at hflags
      exact ⟨hpass, hflags.1.1.1, hflags.1.1.2, hflags.1.2, hflags.2⟩

/-- Witness for C9: the theorem applied to the head of a concrete run's
pass list. -/
theorem C9_witness :
    (runScreener T0 [uA]).report = some (reportOf T0 [uA]) ∧
    (reportOf T0 [uA]).passList.headI ∈ (reportOf T0 [uA]).passList ∧
    ((reportOf T0 [uA]).passList.headI.passes = true ∧
     (reportOf T0 [uA]).passList.headI.rule_div = true ∧
     (reportOf T0 [uA]).passList.headI.rule_pe = true ∧
     (reportOf T0 [uA]).passList.headI.rule_pb = true ∧
     (reportOf T0 [uA]).passList.headI.rule_de = true) :=
  ⟨by with_unfolding_all rfl, by with_unfolding_all decide,
   C9_pass_list_all_flags T0 [uA] (reportOf T0 [uA]) _
     (by with_unfolding_all rfl) (by with_unfolding_all decide)⟩

/-- C10: stage 1 retains at most 1200 rows, each with a non-null estimated
yield at least the threshold, and is a prefix of a descending-estimate
arrangement of the qualifying rows; in a completed run, evaluated and
skipped entities partition stage 1 exactly (so non-stage-1 entities are
never counted in `skipped_missing`), and every record in `pass` or
`topCandidates` comes from a stage-1 row. -/
theorem C10_stage1_prefilter_bound (T : ℚ) (rows : List UniverseRow) :
    (stage1 T (filterUniverse rows)).length ≤ MAX_TICKERS_TO_EVALUATE ∧
    (∀ r ∈ stage1 T (filterUniverse rows),
      ∃ e, divYieldEst r = some e ∧ T ≤ e) ∧
    (∃ sorted, sorted.Perm (stage1Candidates T (filterUniverse rows)) ∧
      List.Sorted estGE sorted ∧
      stage1 T (filterUniverse rows) = sorted.take MAX_TICKERS_TO_EVALUATE) ∧
    ∀ rep, (runScreener T rows).report = some rep →
      rep.evaluated + rep.skipped_missing =
        (stage1 T (filterUniverse rows)).length ∧
      (∀ rec ∈ rep.passList, ∃ r ∈ stage1 T (filterUniverse rows),
        rec.ticker = r.ticker) ∧
      (∀ rec ∈ rep.topCandidates, ∃ r ∈ stage1 T (filterUniverse rows),
        rec.ticker = r.ticker) := by
  refine ⟨List.length_take_le _ _, ?_, ?_, ?_⟩
  · intro r hr
    exact (mem_stage1Candidates T (filterUniverse rows) r
      (stage1_subset T (filterUniverse rows) hr)).2
  · exact ⟨List.insertionSort estGE (stage1Candidates T (filterUniverse rows)),
      List.perm_insertionSort _ _, List.sorted_insertionSort _ _, rfl⟩
  · intro rep hrep
    by_cases hab : (runLoop T initState (stage1 T (filterUniverse rows))).2 = true
    · simp [runScreener, hab] at hrep
    · rw [Bool.not_eq_true] at hab
      simp only [runScreener, hab, Bool.false_eq_true, if_false,
        Option.some_inj] at hrep
      subst hrep
      obtain ⟨h1, h2, -⟩ :=
        runLoop_complete T (stage1 T (filterUniverse rows)) initState hab
      have hres : ∀ rec ∈
          (runLoop T initState (stage1 T (filterUniverse rows))).1.results,
          ∃ r ∈ stage1 T (filterUniverse rows), rec.ticker = r.ticker := by
        intro rec hrec
        rcases runLoop_results_mem T (stage1 T (filterUniverse rows)) initState
          rec hrec with h | ⟨r, hr, hev⟩
        · exact absurd h (by simp [initState])
        · obtain ⟨a, b, c, d, rfl⟩ := evalRow_eq_some T r rec hev
          exact ⟨r, hr, mkScored_ticker T r a b c d⟩
      refine ⟨?_, ?_, ?_⟩
      · have htot := eval_skip_total T (stage1 T (filterUniverse rows))
        simp only [assembleReport]
        rw [h1, h2]
        simp only [initState, List.nil_append, Nat.zero_add]
        omega
      · intro rec hmem
        simp only [assembleReport] at hmem
        exact hres rec (List.mem_filter.mp hmem).1
      · intro rec hmem
        simp only [assembleReport] at hmem
        exact hres rec
          ((List.perm_insertionSort topGE _).subset
            ((List.take_sublist _ _).subset hmem))

/-- Witness for C10: the theorem applied to a concrete two-entity run (one
scored entity, one skipped for a missing field). -/
theorem C10_witness :
    ((stage1 T0 (filterUniverse [uA, uM])).length ≤ MAX_TICKERS_TO_EVALUATE ∧
     (∀ r ∈ stage1 T0 (filterUniverse [uA, uM]),
       ∃ e, divYieldEst r = some e ∧ T0 ≤ e)) ∧
    ((reportOf T0 [uA, uM]).evaluated + (reportOf T0 [uA, uM]).skipped_missing =
       (stage1 T0 (filterUniverse [uA, uM])).length ∧
     (∀ rec ∈ (reportOf T0 [uA, uM]).passList,
       ∃ r ∈ stage1 T0 (filterUniverse [uA, uM]), rec.ticker = r.ticker) ∧
     (∀ rec ∈ (reportOf T0 [uA, uM]).topCandidates,
       ∃ r ∈ stage1 T0 (filterUniverse [uA, uM]), rec.ticker = r.ticker)) :=
  ⟨⟨(C10_stage1_prefilter_bound T0 [uA, uM]).1,
    (C10_stage1_prefilter_bound T0 [uA, uM]).2.1⟩,
   (C10_stage1_prefilter_bound T0 [uA, uM]).2.2.2 (reportOf T0 [uA, uM])
     (by with_unfolding_all rfl)⟩

end Screener
